import Mathlib

/-!
Verification of the nmongo incremental sync and comparison engine.

This file gives a shallow embedding, in Lean 4, of the algorithmic core of
the nmongo repository (Go), and settles a fixed list of claims about it:

* `internal/mongodb/retry.go` — retry classification and backoff arithmetic;
* `internal/mongodb/incremental.go` — the sync-state store
  (`GetLastSyncTime` / `UpdateLastSyncTime` / `PrepareIncrementalFilter`);
* the client/copy pipeline (`CopyCollection`, `readAndProcessDocuments`,
  `prepareBulkOps`, `extractIndexKeys`, ...);
* `internal/mongodb/compare.go` — the deep document comparator and the
  detailed per-document audit.

Go machine integers are modelled as `Int` with explicit wrapping
(`wrap64`, `wrap32`) where overflow matters.  Network effects are modelled
by passing each call's outcome (found / absent / failed) as an explicit
argument.  BSON values are modelled by the inductive `BVal`, with one
constructor per Go dynamic type the code distinguishes.
-/

namespace Nmongo

/-! ## Machine integer helpers -/

/-- Wrap an integer into the signed 64-bit range, as Go int64 arithmetic does. -/
def wrap64 (x : Int) : Int := (x + 2 ^ 63) % 2 ^ 64 - 2 ^ 63

/-- Wrap an integer into the signed 32-bit range, as Go `int32(...)` conversion does. -/
def wrap32 (x : Int) : Int := (x + 2 ^ 31) % 2 ^ 32 - 2 ^ 31

/-- Go `int64(1) << s` for a non-negative shift count `s`: left shifts wrap
modulo 2^64 and there is no upper limit on the count (a count ≥ 64 yields 0,
which `wrap64 (2 ^ s)` also yields). -/
def goShlOne (s : Nat) : Int := wrap64 (2 ^ s)

/-! ## retry.go: `calculateBackoff`

Source (`internal/mongodb/retry.go`, lines 202‑218):

    baseBackoff := 100 * time.Millisecond
    maxBackoff := 30 * time.Second
    backoff := baseBackoff * time.Duration(1<<uint(attempt-1))
    if backoff > maxBackoff { backoff = maxBackoff }
    jitter := time.Duration(float64(backoff) * 0.25 * (0.5 + 0.5*float64(time.Now().UnixNano()%1000)/1000.0))
    return backoff + jitter

`time.Duration` is an int64 count of nanoseconds, so the multiplication
wraps modulo 2^64 (signed).  The jitter factor
`0.25 * (0.5 + 0.5*k/1000)` equals `(1000 + k) / 8000` exactly, where
`k = UnixNano() % 1000 ∈ [0, 999]`; we model the float64 evaluation by the
exact rational value truncated toward zero (`Int.tdiv`), which is what the
`time.Duration(...)` conversion does.  The double-precision rounding of the
Go expression differs from the exact value by well under one nanosecond for
every backoff the cap allows, so every bound proved below with ≥ 1 ns of
slack also holds for the float computation. -/

def baseBackoffNs : Int := 100000000

def maxBackoffNs : Int := 30000000000

/-- The local `backoff` before the cap: `baseBackoff * time.Duration(1<<uint(attempt-1))`. -/
def backoffRaw (attempt : Nat) : Int :=
  wrap64 (baseBackoffNs * goShlOne (attempt - 1))

/-- The local `backoff` after the `if backoff > maxBackoff` cap. -/
def backoffCapped (attempt : Nat) : Int :=
  if maxBackoffNs < backoffRaw attempt then maxBackoffNs else backoffRaw attempt

/-- Model of `calculateBackoff(attempt)`; `k` is the value of
`time.Now().UnixNano() % 1000` at the time of the call. -/
def calculateBackoff (attempt : Nat) (k : Int) : Int :=
  backoffCapped attempt + Int.tdiv (backoffCapped attempt * (1000 + k)) 8000

/-- The delay the spec's formula prescribes before jitter:
`100ms × 2^(attempt−1)` capped at 30 s, computed without overflow. -/
def backoffSpec (attempt : Nat) : Int :=
  min (baseBackoffNs * 2 ^ (attempt - 1)) maxBackoffNs

/-- Claim C5 as stated: for every attempt and every jitter draw, the result
is the capped doubling formula plus a jitter of at most 25 % of it
(`backoffSpec ≤ result ≤ backoffSpec × 5/4`). -/
def claimC5Backoff : Prop :=
  ∀ (a : Nat) (k : Int), 1 ≤ a → 0 ≤ k → k ≤ 999 →
    backoffSpec a ≤ calculateBackoff a k ∧
    4 * calculateBackoff a k ≤ 5 * backoffSpec a

/-! ## retry.go: error classification -/

/-- Model of `isTransientError` (retry.go lines 186‑200): the switch over
transient MongoDB server codes. -/
def isTransientError (code : Int) : Bool :=
  code == 6 || code == 7 || code == 89 || code == 91 || code == 189 ||
  code == 262 || code == 9001 || code == 10107 || code == 13435 ||
  code == 13436 || code == 16500 || code == 50

/-- One per-document error inside a bulk write exception (`mongo.BulkWriteError`);
`code` is a Go `int`. -/
structure BulkWriteError where
  code : Int
  deriving Repr, DecidableEq

/-- Model of `mongo.BulkWriteException` as far as the classifier reads it. -/
structure BulkWriteException where
  writeErrors : List BulkWriteError
  deriving Repr, DecidableEq

/-- Model of `isRetryableBulkWriteError` (retry.go lines 171‑183): an empty
error list is not retryable; otherwise every sub-error must satisfy
`isTransientError(int32(writeErr.Code))`. -/
def isRetryableBulkWriteError (bulkErr : BulkWriteException) : Bool :=
  if bulkErr.writeErrors.length = 0 then false
  else bulkErr.writeErrors.all fun writeErr => isTransientError (wrap32 writeErr.code)

/-! ## incremental.go: the sync-state store

`GetLastSyncTime` / `UpdateLastSyncTime` pick a metadata client by the
`useTarget` flag; the outcome of the read (write) against each side is
passed in as an explicit argument.  The zero `time.Time` is modelled as the
integer 0.  The Go methods recurse at most once, always into a temporary
helper with `useTarget = true`; that inner call is modelled by the
`...WithTarget` function, and `getLastSyncTime true s t = getLastSyncTimeWithTarget s t`
holds definitionally (see `getLastSyncTime_true_eq`). -/

/-- Outcome of the metadata `FindOne(...).Decode(...)` on one side. -/
inductive ReadOutcome : Type where
  | found (t : Int)
  | noDocuments
  | failure
  deriving Repr, DecidableEq

/-- The body of `GetLastSyncTime` specialized to `useTarget = true`
(incremental.go lines 41‑82): a found record returns its time; absence and
any other failure both return the zero time, with a nil error. -/
def getLastSyncTimeWithTarget (targetRead : ReadOutcome) : Int × Option String :=
  match targetRead with
  | .found t => (t, none)
  | .noDocuments => (0, none)
  | .failure => (0, none)

/-- Model of `GetLastSyncTime` (incremental.go lines 41‑82).  With
`useTarget = false` a non-absence failure falls back to a temporary helper
with `useTarget = true`; with `useTarget = true` it returns the zero time
at once. -/
def getLastSyncTime (useTarget : Bool) (sourceRead targetRead : ReadOutcome) :
    Int × Option String :=
  match if useTarget then targetRead else sourceRead with
  | .found t => (t, none)
  | .noDocuments => (0, none)
  | .failure =>
    if useTarget then (0, none)
    else getLastSyncTimeWithTarget targetRead

/-- The read the configured side performs first. -/
def preferredReadOutcome (useTarget : Bool) (sourceRead targetRead : ReadOutcome) :
    ReadOutcome :=
  if useTarget then targetRead else sourceRead

/-- The "zero-or-found result" of one side, in the claim's words: the found
checkpoint if the read found one, the zero timestamp otherwise. -/
def zeroOrFound : ReadOutcome → Int
  | .found t => t
  | .noDocuments => 0
  | .failure => 0

/-- Claim C2 as stated: for every choice of preferred side, a read failure on
the preferred side falls back once to the non-preferred side and returns that
side's zero-or-found result (still with no error). -/
def claimC2GetLastSyncTime : Prop :=
  ∀ (useTarget : Bool) (sourceRead targetRead : ReadOutcome),
    preferredReadOutcome useTarget sourceRead targetRead = .failure →
    getLastSyncTime useTarget sourceRead targetRead =
      (zeroOrFound (preferredReadOutcome (!useTarget) sourceRead targetRead), none)

/-- The body of `UpdateLastSyncTime` specialized to `useTarget = true`
(incremental.go lines 85‑128): the upsert's error (if any) is returned as is. -/
def updateLastSyncTimeWithTarget (targetWrite : Option String) : Option String :=
  targetWrite

/-- Model of `UpdateLastSyncTime` (incremental.go lines 85‑128).  `sourceWrite`
and `targetWrite` are the outcomes of the metadata upsert on each side
(`none` = success, `some e` = the write error `e`).  With `useTarget = false`
a failure retries through a temporary helper with `useTarget = true`; with
`useTarget = true` a failure is returned at once. -/
def updateLastSyncTime (useTarget : Bool) (sourceWrite targetWrite : Option String) :
    Option String :=
  match if useTarget then targetWrite else sourceWrite with
  | none => none
  | some e =>
    if useTarget then some e
    else updateLastSyncTimeWithTarget targetWrite

/-- The write outcome of the configured side. -/
def preferredWriteOutcome (useTarget : Bool) (sourceWrite targetWrite : Option String) :
    Option String :=
  if useTarget then targetWrite else sourceWrite

/-- Claim C6 as stated: for every choice of preferred side, a failed upsert is
retried once against the non-preferred side (the result is that side's write
outcome), and an error reaches the caller only when both sides failed. -/
def claimC6UpdateLastSyncTime : Prop :=
  ∀ (useTarget : Bool) (sourceWrite targetWrite : Option String),
    ((preferredWriteOutcome useTarget sourceWrite targetWrite).isSome →
      updateLastSyncTime useTarget sourceWrite targetWrite =
        preferredWriteOutcome (!useTarget) sourceWrite targetWrite) ∧
    ((updateLastSyncTime useTarget sourceWrite targetWrite).isSome →
      sourceWrite.isSome ∧ targetWrite.isSome)

/-! ## incremental.go: `PrepareIncrementalFilter`

The filter construction from the obtained last sync time
(incremental.go lines 140‑160).  The result triple is
(filter, advisory, error): `advisory` records whether the
"Proper incremental filtering requires a lastModified field" note is
printed.  `lastSyncTime.IsZero()` is modelled as `= 0`. -/

/-- A MongoDB query predicate as this code builds it: either the empty
document `bson.M{}` or `{field: {$gt: t}}`. -/
inductive MongoFilter : Type where
  | empty
  | gtField (field : String) (t : Int)
  deriving Repr, DecidableEq

/-- Model of the filter-building part of `PrepareIncrementalFilter`. -/
def prepareIncrementalFilter (lastSyncTime : Int) (lastModifiedField : String) :
    MongoFilter × Bool × Option String :=
  if lastSyncTime = 0 then (.empty, false, none)
  else if lastModifiedField ≠ "" then
    (.gtField lastModifiedField lastSyncTime, false, none)
  else (.empty, true, none)

/-- Evaluation of such a predicate on a document, restricted to what the
engine stores in the tracked field: `doc` maps a field name to the timestamp
stored there, if any.  `{field: {$gt: t}}` matches exactly the documents
whose value at `field` is strictly greater than `t`; a document without the
field does not match; the empty predicate matches everything. -/
def MongoFilter.matches : MongoFilter → (String → Option Int) → Bool
  | .empty, _ => true
  | .gtField f t, doc =>
    match doc f with
    | some v => t < v
    | none => false

/-! ## A model of decoded BSON values

`bson.M` is `map[string]interface{}`; decoded values carry a Go dynamic
type.  `BVal` has one constructor per dynamic type the engine's code
distinguishes; the payload of `vF64` is a rational standing for the float64
value (the comparator only tests such values for equality, and the index
converter truncates them, so no float rounding enters the claims; NaN
payloads, on which Go `==` differs from structural equality, are outside
this model).  A document is its list of entries; Go's map erases entry
order and forbids duplicate keys, which matters where noted. -/

inductive BVal : Type where
  | vIntGo (n : Int)
  | vI32 (n : Int)
  | vI64 (n : Int)
  | vF64 (q : Rat)
  | vStr (s : String)
  | vBool (b : Bool)
  | vTime (t : Int)
  | vDoc (entries : List (String × BVal))
  | vArr (elems : List BVal)

/-- A decoded BSON document: its entries.  Functions reading it as a
`bson.M` use `dlookup`, which returns the first binding, and assume the
keys are distinct as a Go map guarantees. -/
abbrev BDoc := List (String × BVal)

/-- Map access `doc[key]` on the entry-list model of `bson.M`. -/
def dlookup (d : BDoc) (k : String) : Option BVal :=
  match d with
  | [] => none
  | (k2, v) :: rest => if k2 = k then some v else dlookup rest k

/-! Go `==` on two `interface{}` values: equal iff the dynamic types are
identical and the values are equal.  When both dynamic types are the same
*uncomparable* type — two maps, two slices — Go `==` PANICS at run time
instead of returning a verdict.  One such site is reachable in the
comparator: `sliceEqual`'s `a[i] != b[i]` (compare.go line 495) on two
aligned `[]interface{}` elements.  This model totalizes those corners to
structural equality, so every theorem about the comparator carries a
`noSlicePair` hypothesis (defined below) restricting it to inputs on which
the program reaches no such comparison and hence completes; on excluded
inputs the model asserts nothing about the comparator.  (Two maps never
meet `==` in the comparator: both `compareValues` and `sliceElemCompare`
intercept the document/document case first.) -/

mutual

def goEq (v w : BVal) : Bool :=
  match v, w with
  | .vIntGo a, .vIntGo b => a == b
  | .vI32 a, .vI32 b => a == b
  | .vI64 a, .vI64 b => a == b
  | .vF64 a, .vF64 b => a == b
  | .vStr a, .vStr b => a == b
  | .vBool a, .vBool b => a == b
  | .vTime a, .vTime b => a == b
  | .vDoc a, .vDoc b => goEqEntries a b
  | .vArr a, .vArr b => goEqList a b
  | _, _ => false
  termination_by structural v

def goEqEntries (l1 l2 : List (String × BVal)) : Bool :=
  match l1, l2 with
  | [], [] => true
  | (k1, v1) :: r1, (k2, v2) :: r2 => k1 == k2 && goEq v1 v2 && goEqEntries r1 r2
  | _, _ => false
  termination_by structural l1

def goEqList (l1 l2 : List BVal) : Bool :=
  match l1, l2 with
  | [], [] => true
  | a :: as2, b :: bs => goEq a b && goEqList as2 bs
  | _, _ => false
  termination_by structural l1

end

/-! Recursive well-formedness of a decoded value: every document appearing
in it has pairwise-distinct keys, as every value decoded from a Go
`bson.M` does. -/

mutual

def wfBVal (v : BVal) : Bool :=
  match v with
  | .vDoc d => decide ((d.map Prod.fst).Nodup) && wfEntries d
  | .vArr l => wfList l
  | _ => true
  termination_by structural v

def wfEntries (l : List (String × BVal)) : Bool :=
  match l with
  | [] => true
  | (_, v) :: rest => wfBVal v && wfEntries rest
  termination_by structural l

def wfList (l : List BVal) : Bool :=
  match l with
  | [] => true
  | v :: rest => wfBVal v && wfList rest
  termination_by structural l

end

/-! ## compare.go: the deep document comparator

Source: `internal/mongodb/compare.go` lines 395‑501 (`bsonEqual`,
`compareDocumentKeys`, `hasExtraKeys`, `shouldSkipCompare`,
`compareValues`, `sliceEqual`). -/

/-- Model of `shouldSkipCompare` (compare.go lines 448‑457): the comparison
of the field `value` is skipped when the document's `_id` equals the Go
literal `2` — `idVal == 2` compares against dynamic type `int`, hence
`vIntGo 2`.  The source comment calls this a special case for a test
document. -/
def shouldSkipCompare (doc : BDoc) (key : String) : Bool :=
  if key ≠ "value" then false
  else
    match dlookup doc "_id" with
    | some (.vIntGo 2) => true
    | _ => false

/-- Model of `hasExtraKeys` (compare.go lines 431‑445): does `b` have a key,
other than `lastModified` and `modified`, that is absent from `a`? -/
def hasExtraKeys (a b : BDoc) : Bool :=
  b.any fun kv => !(kv.1 == "lastModified" || kv.1 == "modified") && (dlookup a kv.1).isNone

/-! The loop of `compareDocumentKeys` iterates the entries of `a` while
keeping the whole document for the `shouldSkipCompare` check; `bsonEqual`
on nested documents is inlined inside the mutual block, and the wrapper
`bsonEqual` below is definitionally that body.  `sliceElemCompare` is the
body of `sliceEqual`'s loop: two nested documents compare by `bsonEqual`,
any other pair by Go `==` (`a[i] != b[i]`). -/

mutual

def compareKeysLoop (entries : List (String × BVal)) (a b : BDoc) : Bool :=
  match entries with
  | [] => true
  | (key, aVal) :: rest =>
    (if key = "lastModified" then true
     else
       match dlookup b key with
       | none => false
       | some bVal =>
         if shouldSkipCompare a key then true
         else compareValues aVal bVal)
    && compareKeysLoop rest a b
  termination_by structural entries

def compareValues (aVal bVal : BVal) : Bool :=
  match aVal, bVal with
  | .vDoc av, .vDoc bv => compareKeysLoop av av bv && !(hasExtraKeys av bv)
  | .vDoc _, _ => false
  | .vArr av, .vArr bv => sliceEqual av bv
  | .vArr _, _ => false
  | v2, w2 => goEq v2 w2
  termination_by structural aVal

def sliceElemCompare (x y : BVal) : Bool :=
  match x, y with
  | .vDoc xd, .vDoc yd => compareKeysLoop xd xd yd && !(hasExtraKeys xd yd)
  | x2, y2 => goEq x2 y2
  termination_by structural x

def sliceEqual (a b : List BVal) : Bool :=
  match a, b with
  | [], [] => true
  | x :: xs, y :: ys => sliceElemCompare x y && sliceEqual xs ys
  | _, _ => false
  termination_by structural a

end

/-- Model of `compareDocumentKeys` (compare.go lines 403‑428). -/
def compareDocumentKeys (a b : BDoc) : Bool :=
  compareKeysLoop a a b

/-- Model of `bsonEqual` (compare.go lines 397‑400). -/
def bsonEqual (a b : BDoc) : Bool :=
  compareDocumentKeys a b && !(hasExtraKeys a b)

/-! The panic-freedom predicate: the only Go `==` on an uncomparable type
the comparator can reach is `a[i] != b[i]` in `sliceEqual` on two aligned
slice elements, which panics.  `noSlicePair v w` holds when the aligned
structure of `v` and `w` contains no array element sitting opposite
another array element inside a pair of compared arrays, so every `==` the
comparison evaluates is on comparable or differently-typed operands and
the program returns a verdict.  (The predicate is slightly conservative:
it also covers value pairs a short-circuited or skipped comparison might
not evaluate.) -/

mutual

def noSlicePair (v w : BVal) : Bool :=
  match v, w with
  | .vDoc a, .vDoc b => noSlicePairEntries a b
  | .vArr xs, .vArr ys => noSlicePairElems xs ys
  | _, _ => true
  termination_by structural v

def noSlicePairEntries (a : List (String × BVal)) (b : BDoc) : Bool :=
  match a with
  | [] => true
  | (k, x) :: rest =>
    (match dlookup b k with
     | some y => noSlicePair x y
     | none => true)
    && noSlicePairEntries rest b
  termination_by structural a

def noSlicePairElem (x y : BVal) : Bool :=
  match x, y with
  | .vDoc xd, .vDoc yd => noSlicePairEntries xd yd
  | .vArr _, .vArr _ => false
  | _, _ => true
  termination_by structural x

def noSlicePairElems (xs ys : List BVal) : Bool :=
  match xs, ys with
  | x :: rxs, y :: rys => noSlicePairElem x y && noSlicePairElems rxs rys
  | _, _ => true
  termination_by structural xs

end

/-! ## The claim-side characterization of the comparator

`specValEqProp` renders claim C3's sentence as a predicate: two documents
are equal iff every field of the first except the volatile `lastModified`
field exists in the second with a recursively equal value (nested maps
recursive, arrays order-sensitive element-wise, nested maps inside arrays
compared recursively), and the second has no extra field modulo the
volatile field.  The flag `hacks` switches on the two test-fixture
deviations the code carries (`shouldSkipCompare`, and the extra skip of the
key `modified` on the second document): with `hacks = false` the predicate
is the claim exactly as stated; with `hacks = true` it is the amended
claim.  The three lemmas before it feed its termination proof. -/

theorem dlookup_mem {d : BDoc} {k : String} {v : BVal} (h : dlookup d k = some v) :
    (k, v) ∈ d := by
  induction d with
  | nil => simp [dlookup] at h
  | cons kv rest ih =>
    obtain ⟨k2, v2⟩ := kv
    by_cases hk : k2 = k
    · subst hk
      simp [dlookup] at h
      simp [h]
    · simp [dlookup, hk] at h
      exact List.mem_cons_of_mem _ (ih h)

theorem sizeOf_val_lt_of_mem {d : BDoc} {k : String} {v : BVal} (h : (k, v) ∈ d) :
    sizeOf v < sizeOf d := by
  have h1 := List.sizeOf_lt_of_mem h
  have h2 : sizeOf (k, v) = 1 + sizeOf k + sizeOf v := rfl
  omega

theorem sizeOf_lt_of_mem_zip {a b : List BVal} {p : BVal × BVal} (h : p ∈ a.zip b) :
    sizeOf p.1 < sizeOf a ∧ sizeOf p.2 < sizeOf b := by
  obtain ⟨h1, h2⟩ := List.of_mem_zip h
  exact ⟨List.sizeOf_lt_of_mem h1, List.sizeOf_lt_of_mem h2⟩

/-- Is this decoded value a document (`bson.M`)? -/
def isDocVal : BVal → Bool
  | .vDoc _ => true
  | _ => false

/-- The claim's structural equality, parameterized by whether the code's two
test-fixture carve-outs are granted (`hacks`).  On documents: every
non-volatile field of the first exists in the second, with a recursively
equal value unless the `shouldSkipCompare` carve-out waives the value
check; and every non-volatile field of the second (also excepting
`modified` under the carve-out) exists in the first.  On arrays:
order-sensitive element-wise comparison, nested documents recursively, all
other elements by plain Go equality.  On everything else: plain equality. -/
def specValEqProp (hacks : Bool) (v w : BVal) : Prop :=
  match v, w with
  | .vDoc ad, .vDoc bd =>
      (∀ k x, dlookup ad k = some x → k ≠ "lastModified" →
         ∃ y, dlookup bd k = some y ∧
           ((hacks = true ∧ shouldSkipCompare ad k = true) ∨ specValEqProp hacks x y))
      ∧ (∀ k y, dlookup bd k = some y → k ≠ "lastModified" →
           ¬(hacks = true ∧ k = "modified") → ∃ x, dlookup ad k = some x)
  | .vArr av, .vArr bw =>
      av.length = bw.length ∧
      ∀ p, p ∈ av.zip bw →
        if isDocVal p.1 && isDocVal p.2 then specValEqProp hacks p.1 p.2 else p.1 = p.2
  | x, y => x = y
termination_by sizeOf v
decreasing_by
  · have h1 := sizeOf_val_lt_of_mem (dlookup_mem (by assumption))
    simp
    omega
  · have h2 := (sizeOf_lt_of_mem_zip (by assumption)).1
    simp
    omega

/-! ## part_006 (the current client.go): the batch transfer pipeline

Source: `readAndProcessDocuments` (lines 316‑362), `handleRemainingDocuments`
(lines 365‑383), `processBatches` (lines 276‑313), `prepareBulkOps`
(lines 434‑458), `upsertDocuments` (lines 407‑431). -/

/-- One bulk write operation as `prepareBulkOps` builds it:
`mongo.NewReplaceOneModel().SetFilter(bson.M{"_id": id}).SetReplacement(docMap).SetUpsert(upsert)`. -/
inductive WriteModel : Type where
  | replaceOne (filterId : BVal) (replacement : BDoc) (upsert : Bool)

/-- Model of `prepareBulkOps` (lines 434‑458): one replace-with-upsert
operation per batch element that is a document with an `_id` field, in
batch order; elements failing either check are skipped (`continue`). -/
def prepareBulkOps (batch : List BVal) : List WriteModel :=
  batch.foldl
    (fun bulkOps doc =>
      match doc with
      | .vDoc docMap =>
        match dlookup docMap "_id" with
        | some id => bulkOps ++ [.replaceOne id docMap true]
        | none => bulkOps
      | _ => bulkOps)
    []

/-- The operation `prepareBulkOps` derives from one batch element, if any
(used to state what the fold produces). -/
def bulkOpFor (doc : BVal) : Option WriteModel :=
  match doc with
  | .vDoc docMap => (dlookup docMap "_id").map fun id => .replaceOne id docMap true
  | _ => none

/-- Model of `upsertDocuments` (lines 407‑431): the list of
`BulkWrite` calls it issues, each as (operations, ordered flag).  An empty
operation list issues no call; otherwise exactly one unordered call. -/
def upsertDocuments (batch : List BVal) : List (List WriteModel × Bool) :=
  if (prepareBulkOps batch).length = 0 then [] else [(prepareBulkOps batch, false)]

/-- Model of the cursor loop of `readAndProcessDocuments` (lines 316‑362) on
a successful run: `docs` are the documents the cursor yields in order,
`batch` the in-memory batch so far.  Returns the flushed batches in order
and the final partial batch.  A batch is flushed exactly when appending
makes it reach `batchSize`. -/
def readAndProcessDocuments (batchSize : Nat) (docs : List BVal) (batch : List BVal) :
    List (List BVal) × List BVal :=
  match docs with
  | [] => ([], batch)
  | doc :: rest =>
    let batch2 := batch ++ [doc]
    if batchSize ≤ batch2.length then
      let r := readAndProcessDocuments batchSize rest []
      (batch2 :: r.1, r.2)
    else
      readAndProcessDocuments batchSize rest batch2

/-- Model of `processBatches` (lines 276‑313) on a successful run: the
batches flushed (the loop's flushes, then `handleRemainingDocuments`
flushing a non-empty remainder), and the reported document count.  The code
accumulates `docCount += len(batch)` at every flush, so the reported count
is the sum of the flushed batch lengths. -/
def processBatches (batchSize : Nat) (docs : List BVal) : List (List BVal) × Nat :=
  let r := readAndProcessDocuments batchSize docs []
  let flushes := if 0 < r.2.length then r.1 ++ [r.2] else r.1
  (flushes, (flushes.map List.length).sum)

/-! ## part_006: `extractIndexKeys` and the index key order

`ListCollectionIndexes` decodes each index into a `bson.M`, and
`convertToIndexModel` reads its `key` sub-document as a `bson.M` — a Go
map, which erases the key order of the wire document and iterates in an
unspecified (per-iteration randomized) order.  The map is modelled
canonically as the entry list sorted by key (one admissible iteration
order); the decisive fact proved below is order-independent: two wire
documents with the same entries in different orders decode to the *same*
map, so no function of the map can restore both orders. -/

/-- Byte-wise (code-point) lexicographic order on strings, used only to fix
the canonical iteration order of the map model. -/
def strLtB : List Char → List Char → Bool
  | [], [] => false
  | [], _ :: _ => true
  | _ :: _, [] => false
  | c1 :: r1, c2 :: r2 =>
    if c1 < c2 then true
    else if c2 < c1 then false
    else strLtB r1 r2

/-- Key order for the canonical map model. -/
def keyLt (a b : String) : Bool := strLtB a.data b.data

/-- Ordered insertion for the canonical map model. -/
def insertEntry (e : String × BVal) (l : List (String × BVal)) : List (String × BVal) :=
  match l with
  | [] => [e]
  | x :: xs => if keyLt e.1 x.1 then e :: x :: xs else x :: insertEntry e xs

/-- Decoding a wire BSON document (an ordered entry list with distinct keys)
into a Go map (`bson.M`): the canonical, key-sorted entry list. -/
def goMapOf (entries : List (String × BVal)) : List (String × BVal) :=
  entries.foldl (fun acc e => insertEntry e acc) []

/-- Model of `extractIndexKeys` (part_006 lines 559‑577), iterating the
decoded key map in its (model-canonical) order: an `int32` direction is
kept, a `float64` direction is converted with Go `int32(val)` (truncation
toward zero; index directions are small, so no wrap occurs), and any other
value — text-index markers, but also `int64` directions — is passed through
verbatim. -/
def extractIndexKeys (keyDoc : List (String × BVal)) : List (String × BVal) :=
  keyDoc.map fun kv =>
    match kv.2 with
    | .vI32 n => (kv.1, .vI32 n)
    | .vF64 q => (kv.1, .vI32 (if 0 ≤ q then q.floor else q.ceil))
    | v => (kv.1, v)

/-- Claim C4's order sentence for one source index: the parsed pairs appear
in the same order as in the source index's key document. -/
def claimC4KeyOrder (wireKey : List (String × BVal)) : Prop :=
  (extractIndexKeys (goMapOf wireKey)).map Prod.fst = wireKey.map Prod.fst

/-! ## part_006: the order of events in `CopyCollection`

`prepareFilterWithTarget` (lines 208‑247) registers
`defer func() { helper.UpdateLastSyncTime(...) }()` *inside its own body*,
right after `PrepareIncrementalFilter` succeeds; a Go `defer` runs when the
surrounding function returns, so the checkpoint update executes when
`prepareFilterWithTarget` returns — before `createCursor` and
`processBatches` in `CopyCollection` (lines 158‑202), whatever their
outcome.  The trace model lists the engine steps started, in order, as a
function of each step's outcome. -/

inductive CopyEvent : Type where
  | getLastSync
  | updateLastSync
  | createCursor
  | flushBatch
  | copyIndexes
  deriving Repr, DecidableEq

/-- Events of `prepareFilterWithTarget` and whether it returned success.
In incremental mode it reads the checkpoint (`PrepareIncrementalFilter`,
which starts with `GetLastSyncTime`); on success the deferred
`UpdateLastSyncTime` fires as the function returns. -/
def prepareFilterWithTargetEvents (incremental prepOk : Bool) : List CopyEvent × Bool :=
  if !incremental then ([], true)
  else if prepOk then ([.getLastSync, .updateLastSync], true)
  else ([.getLastSync], false)

/-- Events of one `CopyCollection` run: filter preparation, then cursor
creation, then the batch transfer, then index copying, each step reached
only if the previous succeeded (`transferOk` covers `processBatches`). -/
def copyCollectionEvents (incremental prepOk cursorOk transferOk : Bool) :
    List CopyEvent × Bool :=
  let p := prepareFilterWithTargetEvents incremental prepOk
  if !p.2 then (p.1, false)
  else if !cursorOk then (p.1 ++ [.createCursor], false)
  else if !transferOk then (p.1 ++ [.createCursor, .flushBatch], false)
  else (p.1 ++ [.createCursor, .flushBatch, .copyIndexes], true)

/-- Claim C1 as stated: the checkpoint update runs only in runs whose
transfer succeeded, and never with transfer work still after it in the
trace. -/
def claimC1CheckpointAfterTransfer : Prop :=
  ∀ (incremental prepOk cursorOk transferOk : Bool),
    (CopyEvent.updateLastSync ∈ (copyCollectionEvents incremental prepOk cursorOk transferOk).1 →
      transferOk = true) ∧
    ∀ (l1 l2 : List CopyEvent),
      (copyCollectionEvents incremental prepOk cursorOk transferOk).1 =
        l1 ++ CopyEvent.updateLastSync :: l2 →
      CopyEvent.flushBatch ∉ l2

/-! ## compare.go: the detailed per-document audit

Source: `processSourceDocument` (lines 233‑262), `processSourceDocuments`
(lines 184‑230), `processTargetDocument` (lines 363‑387),
`processTargetDocuments` (lines 316‑360), `calculateCollectionCounts`
(lines 137‑159).  The lookup of a document by `_id` on the other side is
passed in as a function from the id value to its outcome. -/

/-- Outcome of the `FindOne(ctx, bson.M{"_id": id}).Decode(...)` lookup. -/
inductive LookupOutcome : Type where
  | found (d : BDoc)
  | notFound
  | lookupError

/-- The counters `processSourceDocuments` accumulates (`DocumentProcessingResult`). -/
structure SourceCounters where
  missingInTarget : Int
  different : Int
  docCount : Int
  deriving Repr, DecidableEq

/-- The counters `processTargetDocuments` accumulates (`TargetProcessingResult`). -/
structure TargetCounters where
  missingInSource : Int
  docCount : Int
  deriving Repr, DecidableEq

/-- Model of `processSourceDocument`: a document without `_id` is passed
over (`return nil`); otherwise the target lookup decides between
`missingInTarget`, an error, and the `bsonEqual` comparison. -/
def processSourceDocument (doc : BDoc) (target : BVal → LookupOutcome)
    (st : SourceCounters) : Except String SourceCounters :=
  match dlookup doc "_id" with
  | none => .ok st
  | some id =>
    match target id with
    | .notFound => .ok { st with missingInTarget := st.missingInTarget + 1 }
    | .lookupError => .error "error querying target collection"
    | .found targetDoc =>
      if bsonEqual doc targetDoc then .ok st
      else .ok { st with different := st.different + 1 }

/-- Model of the cursor loop of `processSourceDocuments`: `docCount++` then
`processSourceDocument` for each decoded document, stopping at the first
error. -/
def processSourceDocuments (docs : List BDoc) (target : BVal → LookupOutcome)
    (st : SourceCounters) : Except String SourceCounters :=
  match docs with
  | [] => .ok st
  | doc :: rest =>
    match processSourceDocument doc target { st with docCount := st.docCount + 1 } with
    | .ok st2 => processSourceDocuments rest target st2
    | .error e => .error e

/-- Model of `processTargetDocument`: a document without `_id` is passed
over; otherwise only presence in the source is checked. -/
def processTargetDocument (doc : BDoc) (source : BVal → LookupOutcome)
    (st : TargetCounters) : Except String TargetCounters :=
  match dlookup doc "_id" with
  | none => .ok st
  | some id =>
    match source id with
    | .notFound => .ok { st with missingInSource := st.missingInSource + 1 }
    | .lookupError => .error "error querying source collection"
    | .found _ => .ok st

/-- Model of the cursor loop of `processTargetDocuments`. -/
def processTargetDocuments (docs : List BDoc) (source : BVal → LookupOutcome)
    (st : TargetCounters) : Except String TargetCounters :=
  match docs with
  | [] => .ok st
  | doc :: rest =>
    match processTargetDocument doc source { st with docCount := st.docCount + 1 } with
    | .ok st2 => processTargetDocuments rest source st2
    | .error e => .error e

/-- Model of `calculateCollectionCounts`: `CountDocuments` with the empty
filter on each side counts every document, with or without `_id`. -/
def calculateCollectionCounts (sourceDocs targetDocs : List BDoc) : Int × Int :=
  (Int.ofNat sourceDocs.length, Int.ofNat targetDocs.length)

/-- Does this document carry a primary key? -/
def hasPrimaryKey (doc : BDoc) : Bool := (dlookup doc "_id").isSome

/-! # Theorems -/

/-! ## Sanity: the one-shot recursion of the sync-state store -/

/-- The `useTarget = true` run of `GetLastSyncTime` is the specialized body,
definitionally — the model's stand-in for the method's self-recursion. -/
theorem getLastSyncTime_true_eq (sourceRead targetRead : ReadOutcome) :
    getLastSyncTime true sourceRead targetRead = getLastSyncTimeWithTarget targetRead := by
  cases targetRead <;> rfl

/-- Claim C2, counterexample: with the target side preferred
(`useTarget = true`), a target-side read failure does *not* fall back to the
source side — the code returns the zero time at once, even though the
source side holds the checkpoint 5. -/
theorem c2_counterexample_no_fallback_from_target : ¬ claimC2GetLastSyncTime := by
  intro h
  have h5 := h true (.found 5) .failure rfl
  exact absurd h5 (by decide)

/-- Claim C2, amended: the one-sided fallback the code implements.  When the
source side is preferred (`useTarget = false`), a read failure other than
absence falls back once to the target side and returns its zero-or-found
result (zero also when the target read fails too); when the target side is
preferred (`useTarget = true`), any read outcome yields that side's
zero-or-found result directly — a target-side failure returns the zero
timestamp without consulting the source.  No input makes the method return
an error. -/
theorem c2_getLastSyncTime_one_sided_fallback (sourceRead targetRead : ReadOutcome)
    (x : Int) :
    getLastSyncTime true sourceRead targetRead = (zeroOrFound targetRead, none) ∧
    getLastSyncTime false .failure targetRead = (zeroOrFound targetRead, none) ∧
    getLastSyncTime false (.found x) targetRead = (x, none) ∧
    getLastSyncTime false .noDocuments targetRead = (0, none) := by
  refine ⟨?_, ?_, rfl, rfl⟩ <;> cases targetRead <;> rfl

/-- Claim C6, counterexample: with the target side preferred
(`useTarget = true`), a failed upsert is *not* retried against the source
side — the error is propagated although the source-side write was never
attempted (and would have succeeded). -/
theorem c6_counterexample_no_retry_from_target : ¬ claimC6UpdateLastSyncTime := by
  intro h
  have h2 := (h true none (some "boom")).2 (by decide)
  exact absurd h2.1 (by decide)

/-- Claim C6, amended: the one-sided retry the code implements.  When the
source side is preferred (`useTarget = false`), a failed upsert is retried
once against the target side and that side's outcome — success or error —
is returned; when the target side is preferred (`useTarget = true`), the
target-side outcome is returned directly, so a single target-side write
failure already reaches the caller. -/
theorem c6_updateLastSyncTime_one_sided_retry (sourceWrite targetWrite : Option String)
    (e : String) :
    updateLastSyncTime true sourceWrite targetWrite = targetWrite ∧
    updateLastSyncTime false none targetWrite = none ∧
    updateLastSyncTime false (some e) targetWrite = targetWrite := by
  refine ⟨?_, rfl, rfl⟩
  cases targetWrite <;> rfl

/-- Claim C9: the incremental filter construction.  A zero last-sync time
yields the empty predicate (which matches every document); a non-zero time
with a configured field yields the predicate matching exactly the documents
whose value at that field is strictly greater than the time; a non-zero
time without a configured field yields the empty predicate with the
advisory flag set and no error. -/
theorem c9_prepareIncrementalFilter_cases (t : Int) (f : String)
    (doc : String → Option Int) :
    prepareIncrementalFilter 0 f = (.empty, false, none) ∧
    MongoFilter.matches .empty doc = true ∧
    (t ≠ 0 → f ≠ "" →
      prepareIncrementalFilter t f = (.gtField f t, false, none) ∧
      (MongoFilter.matches (.gtField f t) doc = true ↔ ∃ v, doc f = some v ∧ t < v)) ∧
    (t ≠ 0 → prepareIncrementalFilter t "" = (.empty, true, none)) := by
  refine ⟨rfl, rfl, ?_, ?_⟩
  · intro ht hf
    refine ⟨by simp [prepareIncrementalFilter, ht, hf], ?_⟩
    cases h : doc f <;> simp [MongoFilter.matches, h]
  · intro ht
    simp [prepareIncrementalFilter, ht]

/-- Claim C9, witness at a concrete input. -/
theorem c9_witness :
    prepareIncrementalFilter 7 "lastModified" = (.gtField "lastModified" 7, false, none) ∧
    prepareIncrementalFilter 7 "" = (.empty, true, none) := by
  have h := c9_prepareIncrementalFilter_cases 7 "lastModified" fun _ => none
  exact ⟨(h.2.2.1 (by decide) (by decide)).1, h.2.2.2 (by decide)⟩

/-- Claim C7: a batch write exception carrying sub-errors is classified
retryable exactly when every sub-error's code (after Go's `int32`
conversion) is transient, and one permanent sub-error makes the whole batch
non-retryable. -/
theorem c7_isRetryableBulkWriteError_all_transient (bulkErr : BulkWriteException)
    (hne : bulkErr.writeErrors ≠ []) :
    (isRetryableBulkWriteError bulkErr = true ↔
      ∀ we ∈ bulkErr.writeErrors, isTransientError (wrap32 we.code) = true) ∧
    (∀ we ∈ bulkErr.writeErrors, isTransientError (wrap32 we.code) = false →
      isRetryableBulkWriteError bulkErr = false) := by
  constructor
  · simp [isRetryableBulkWriteError, List.length_eq_zero, hne, List.all_eq_true]
  · intro we hmem hperm
    cases hall : bulkErr.writeErrors.all fun w => isTransientError (wrap32 w.code) with
    | false => simp [isRetryableBulkWriteError, hall]
    | true =>
      have := List.all_eq_true.mp hall we hmem
      rw [hperm] at this
      exact absurd this (by decide)

/-- Claim C7, witness: a batch whose single sub-error is the duplicate-key
code 11000 is not retryable. -/
theorem c7_witness : isRetryableBulkWriteError ⟨[⟨11000⟩]⟩ = false := by
  have h := c7_isRetryableBulkWriteError_all_transient ⟨[⟨11000⟩]⟩ (by decide)
  exact h.2 ⟨11000⟩ (by decide) (by decide)

/-- Claim C1 is violated by the code: in an incremental run whose filter
preparation succeeds but whose batch transfer fails, the deferred
`UpdateLastSyncTime` has already run — it fires when
`prepareFilterWithTarget` returns, before the cursor is even created.  The
first conjunct evaluates the trace at that failing input; the second
refutes the claim as stated. -/
theorem c1_updateLastSyncTime_before_transfer :
    (copyCollectionEvents true true true false).1 =
      [CopyEvent.getLastSync, CopyEvent.updateLastSync,
       CopyEvent.createCursor, CopyEvent.flushBatch] ∧
    ¬ claimC1CheckpointAfterTransfer := by
  refine ⟨rfl, ?_⟩
  intro h
  have h1 := (h true true true false).1 (by decide)
  exact absurd h1 (by decide)

/-- Claim C4 is violated by the code: decoding an index key specification
into a Go map (`bson.M`) erases the wire order, so `extractIndexKeys`
cannot emit the pairs in source order.  The two wire documents
`{b: -1, a: 1}` and `{a: 1, b: -1}` decode to the same map; on the first of
them the extracted order differs from the source order.  (The parsing
itself — `int32` kept, `float64` truncated to `int32`, anything else
verbatim — is as claimed; only the order sentence fails.) -/
theorem c4_extractIndexKeys_order_lost :
    goMapOf [("b", BVal.vI32 (-1)), ("a", BVal.vI32 1)] =
      goMapOf [("a", BVal.vI32 1), ("b", BVal.vI32 (-1))] ∧
    (extractIndexKeys (goMapOf [("b", BVal.vI32 (-1)), ("a", BVal.vI32 1)])).map Prod.fst =
      ["a", "b"] ∧
    ¬ claimC4KeyOrder [("b", BVal.vI32 (-1)), ("a", BVal.vI32 1)] := by
  refine ⟨rfl, rfl, fun h => ?_⟩
  have h2 : (extractIndexKeys (goMapOf [("b", BVal.vI32 (-1)), ("a", BVal.vI32 1)])).map
      Prod.fst = [("b", BVal.vI32 (-1)), ("a", BVal.vI32 1)].map Prod.fst := h
  exact absurd h2 (by decide)

/-! ## Claim C5: the backoff bounds -/

theorem wrap64_eq_self {x : Int} (h1 : -(2 ^ 63) ≤ x) (h2 : x < 2 ^ 63) :
    wrap64 x = x := by
  unfold wrap64
  have p63 : (2 : Int) ^ 63 = 9223372036854775808 := by norm_num
  have p64 : (2 : Int) ^ 64 = 18446744073709551616 := by norm_num
  have hmod : (x + 2 ^ 63) % 2 ^ 64 = x + 2 ^ 63 :=
    Int.emod_eq_of_lt (by omega) (by omega)
  omega

/-- For attempts 1..37 neither the shift nor the multiplication wraps. -/
theorem backoff_pre_cap_eq {a : Nat} (h1 : 1 ≤ a) (h2 : a ≤ 37) :
    wrap64 (baseBackoffNs * goShlOne (a - 1)) = baseBackoffNs * 2 ^ (a - 1) := by
  have hle : (2 : Int) ^ (a - 1) ≤ 2 ^ 36 :=
    pow_le_pow_right₀ (by norm_num) (by omega)
  have hpos : (0 : Int) < 2 ^ (a - 1) := pow_pos (by norm_num) _
  have hs : goShlOne (a - 1) = 2 ^ (a - 1) := by
    unfold goShlOne
    refine wrap64_eq_self (le_trans (by norm_num) hpos.le) ?_
    calc (2 : Int) ^ (a - 1) ≤ 2 ^ 36 := hle
      _ < 2 ^ 63 := by norm_num
  rw [hs]
  refine wrap64_eq_self ?_ ?_
  · unfold baseBackoffNs
    have : (0 : Int) < 100000000 * 2 ^ (a - 1) := by positivity
    omega
  · unfold baseBackoffNs
    calc (100000000 : Int) * 2 ^ (a - 1) ≤ 100000000 * 2 ^ 36 := by nlinarith [hle]
      _ < 2 ^ 63 := by norm_num

/-- For attempts 1..37 the computed pre-jitter backoff is exactly the
spec's capped formula. -/
theorem backoffCapped_eq_spec {a : Nat} (h1 : 1 ≤ a) (h2 : a ≤ 37) :
    backoffCapped a = backoffSpec a := by
  unfold backoffCapped backoffRaw backoffSpec
  rw [backoff_pre_cap_eq h1 h2]
  rcases le_or_lt (baseBackoffNs * 2 ^ (a - 1)) maxBackoffNs with hle | hlt
  · rw [if_neg (not_lt.mpr hle), min_eq_left hle]
  · rw [if_pos hlt, min_eq_right hlt.le]

/-- The jitter term for a non-negative backoff `b`: non-negative, and at
most a quarter of `b`. -/
theorem jitter_bounds {b k : Int} (hb : 0 ≤ b) (hk0 : 0 ≤ k) (hk : k ≤ 999) :
    0 ≤ Int.tdiv (b * (1000 + k)) 8000 ∧
    4 * Int.tdiv (b * (1000 + k)) 8000 ≤ b := by
  have hx : 0 ≤ b * (1000 + k) := mul_nonneg hb (by omega)
  constructor
  · exact Int.tdiv_nonneg hx (by norm_num)
  · have he : Int.tdiv (b * (1000 + k)) 8000 = b * (1000 + k) / 8000 :=
      Int.tdiv_eq_ediv hx (by norm_num)
    have hml : b * (1000 + k) / 8000 * 8000 ≤ b * (1000 + k) :=
      Int.ediv_mul_le _ (by norm_num)
    have hup : b * (1000 + k) ≤ b * 1999 := by nlinarith
    omega

/-- Whatever the attempt, the capped (possibly overflowed) pre-jitter
backoff never exceeds 30 s, and the final result never exceeds 37.5 s. -/
theorem calculateBackoff_le (a : Nat) {k : Int} (hk0 : 0 ≤ k) (hk : k ≤ 999) :
    calculateBackoff a k ≤ 37500000000 := by
  unfold calculateBackoff
  set b : Int := backoffCapped a with hb
  have hble : b ≤ maxBackoffNs := by
    rw [hb]
    unfold backoffCapped
    split_ifs with h
    · exact le_refl _
    · exact not_lt.mp h
  have hmax : maxBackoffNs = 30000000000 := rfl
  rcases le_or_lt 0 b with hpos | hneg
  · have hj := jitter_bounds hpos hk0 hk
    omega
  · have hx : b * (1000 + k) ≤ 0 := by nlinarith
    have ht : Int.tdiv (b * (1000 + k)) 8000 ≤ 0 := by
      have h1 : Int.tdiv (-(b * (1000 + k))) 8000 = -Int.tdiv (b * (1000 + k)) 8000 :=
        Int.neg_tdiv _ _
      have h2 : 0 ≤ Int.tdiv (-(b * (1000 + k))) 8000 :=
        Int.tdiv_nonneg (by omega) (by norm_num)
      omega
    omega

/-- Claim C5, counterexample: at attempt 38 the int64 multiplication
`100ms * (1 << 37)` overflows to a negative duration, so the result is far
below the claimed `backoffSpec 38 = 30 s` floor. -/
theorem c5_counterexample_overflow : ¬ claimC5Backoff := by
  intro h
  have h38 := (h 38 0 (by norm_num) le_rfl (by norm_num)).1
  exact absurd h38 (by decide)

/-- Claim C5, amended: for attempts 1..37 the result is the capped doubling
formula plus a jitter of at most 25 % of it. For larger attempts the int64
multiplication `100ms * (1 << (attempt-1))` wraps and the pre-jitter delay
depends on the wrapped value: at attempt 38 it is negative, so the result
is negative; at other large attempts (attempt 39 for one) the wrapped
product is positive and above the cap, so the claimed formula holds again
with the capped 30 s. In particular attempt 1 lands in [100 ms, 125 ms]
and attempt 3 in [400 ms, 500 ms], and for *every* attempt the result
never exceeds 37.5 s. -/
theorem c5_calculateBackoff_bounds (a : Nat) (k : Int)
    (ha : 1 ≤ a) (hk0 : 0 ≤ k) (hk : k ≤ 999) :
    (a ≤ 37 → backoffSpec a ≤ calculateBackoff a k ∧
      4 * calculateBackoff a k ≤ 5 * backoffSpec a) ∧
    (a = 1 → 100000000 ≤ calculateBackoff a k ∧ calculateBackoff a k ≤ 125000000) ∧
    (a = 3 → 400000000 ≤ calculateBackoff a k ∧ calculateBackoff a k ≤ 500000000) ∧
    calculateBackoff a k ≤ 37500000000 ∧
    (a = 38 → calculateBackoff a k < 0) ∧
    (a = 39 → backoffSpec a ≤ calculateBackoff a k ∧
      4 * calculateBackoff a k ≤ 5 * backoffSpec a) := by
  have hrange : ∀ a2 : Nat, 1 ≤ a2 → a2 ≤ 37 →
      backoffSpec a2 ≤ calculateBackoff a2 k ∧
      4 * calculateBackoff a2 k ≤ 5 * backoffSpec a2 := by
    intro a2 h1 h2
    have heq : calculateBackoff a2 k =
        backoffSpec a2 + Int.tdiv (backoffSpec a2 * (1000 + k)) 8000 := by
      unfold calculateBackoff
      rw [backoffCapped_eq_spec h1 h2]
    have hs : 0 ≤ backoffSpec a2 := by
      unfold backoffSpec baseBackoffNs maxBackoffNs
      have : (0 : Int) < 100000000 * 2 ^ (a2 - 1) := by positivity
      omega
    have hj := jitter_bounds hs hk0 hk
    omega
  refine ⟨hrange a ha, ?_, ?_, calculateBackoff_le a hk0 hk, ?_, ?_⟩
  · rintro rfl
    have h1 := hrange 1 (by norm_num) (by norm_num)
    have hsp : backoffSpec 1 = 100000000 := by decide
    omega
  · rintro rfl
    have h3 := hrange 3 (by norm_num) (by norm_num)
    have hsp : backoffSpec 3 = 400000000 := by decide
    omega
  · rintro rfl
    have hb : backoffCapped 38 = -4702848726509551616 := by decide
    unfold calculateBackoff
    rw [hb]
    have hx : (-4702848726509551616 : Int) * (1000 + k) ≤ 0 := by nlinarith
    have ht : Int.tdiv ((-4702848726509551616 : Int) * (1000 + k)) 8000 ≤ 0 := by
      have h1 : Int.tdiv (-((-4702848726509551616 : Int) * (1000 + k))) 8000 =
          -Int.tdiv ((-4702848726509551616 : Int) * (1000 + k)) 8000 :=
        Int.neg_tdiv _ _
      have h2 : 0 ≤ Int.tdiv (-((-4702848726509551616 : Int) * (1000 + k))) 8000 :=
        Int.tdiv_nonneg (by omega) (by norm_num)
      omega
    omega
  · rintro rfl
    have hb : backoffCapped 39 = 30000000000 := by decide
    have hsp : backoffSpec 39 = 30000000000 := by decide
    have hj := jitter_bounds (show (0 : Int) ≤ 30000000000 by norm_num) hk0 hk
    unfold calculateBackoff
    rw [hb, hsp]
    omega

/-- Claim C5, witness at attempt 3 with jitter draw 500. -/
theorem c5_witness :
    backoffSpec 3 ≤ calculateBackoff 3 500 ∧ calculateBackoff 3 500 ≤ 37500000000 := by
  have h := c5_calculateBackoff_bounds 3 500 (by norm_num) (by norm_num) (by norm_num)
  exact ⟨(h.1 (by norm_num)).1, h.2.2.2.1⟩

/-! ## Claim C8: the transfer count and the incremental bulk writes -/

/-- The flushed batches followed by the final partial batch are exactly the
documents the cursor yielded, in order. -/
theorem readAndProcess_flatten (batchSize : Nat) :
    ∀ (docs batch : List BVal),
      ((readAndProcessDocuments batchSize docs batch).1.flatten) ++
        (readAndProcessDocuments batchSize docs batch).2 = batch ++ docs := by
  intro docs
  induction docs with
  | nil => intro batch; simp [readAndProcessDocuments]
  | cons d rest ih =>
    intro batch
    simp only [readAndProcessDocuments]
    split_ifs with h
    · have ih2 := ih []
      simp only [List.flatten_cons, List.append_assoc, ih2]
      simp
    · have ih2 := ih (batch ++ [d])
      simp only [ih2]
      simp

/-- The reported document count of a successful run equals the number of
documents the cursor yielded. -/
theorem processBatches_count (batchSize : Nat) (docs : List BVal) :
    (processBatches batchSize docs).2 = docs.length := by
  unfold processBatches
  have hflat := readAndProcess_flatten batchSize docs []
  set r := readAndProcessDocuments batchSize docs [] with hr
  by_cases h : 0 < r.2.length
  · simp only [h, if_pos]
    have : ((r.1 ++ [r.2]).flatten).length = docs.length := by
      rw [List.flatten_append]
      simp only [List.flatten_cons, List.flatten_nil, List.append_nil]
      rw [hflat]
      simp
    rw [← List.length_flatten]
    exact this
  · simp only [h, if_neg, not_false_eq_true]
    have h2 : r.2 = [] := List.length_eq_zero.mp (by omega)
    rw [← List.length_flatten]
    have : r.1.flatten = docs := by
      have := hflat
      rw [h2] at this
      simpa using this
    rw [this]

/-- The fold of `prepareBulkOps` produces one operation per eligible batch
element, in order. -/
theorem prepareBulkOps_eq_filterMap (batch : List BVal) :
    prepareBulkOps batch = batch.filterMap bulkOpFor := by
  have haux : ∀ (l : List BVal) (acc : List WriteModel),
      l.foldl
        (fun bulkOps doc =>
          match doc with
          | .vDoc docMap =>
            match dlookup docMap "_id" with
            | some id => bulkOps ++ [.replaceOne id docMap true]
            | none => bulkOps
          | _ => bulkOps)
        acc = acc ++ l.filterMap bulkOpFor := by
    intro l
    induction l with
    | nil => intro acc; simp
    | cons v rest ih =>
      intro acc
      rw [List.foldl_cons, List.filterMap_cons, ih]
      cases v with
      | vDoc docMap =>
        cases hid : dlookup docMap "_id" with
        | some id => simp [bulkOpFor, hid]
        | none => simp [bulkOpFor, hid]
      | vIntGo n => simp [bulkOpFor]
      | vI32 n => simp [bulkOpFor]
      | vI64 n => simp [bulkOpFor]
      | vF64 q => simp [bulkOpFor]
      | vStr s => simp [bulkOpFor]
      | vBool b => simp [bulkOpFor]
      | vTime t => simp [bulkOpFor]
      | vArr l2 => simp [bulkOpFor]
  unfold prepareBulkOps
  rw [haux]
  simp

/-- Length of a `filterMap` as a filtered count. -/
theorem filterMap_length_isSome {α β : Type} (g : α → Option β) (l : List α) :
    (l.filterMap g).length = (l.filter fun v => (g v).isSome).length := by
  induction l with
  | nil => simp
  | cons v rest ih =>
    rw [List.filterMap_cons, List.filter_cons]
    cases hv : g v <;> simp [hv, ih]

/-- Claim C8: the count a successful `Transfer` reports equals the number of
documents the cursor yielded, and in incremental mode every batch element
with an identifiable `_id` becomes exactly one replace-with-upsert
operation, all issued in one unordered bulk write per flush. -/
theorem c8_transfer_count_and_bulk_upserts :
    (∀ (batchSize : Nat) (docs : List BVal),
      (processBatches batchSize docs).2 = docs.length) ∧
    (∀ (batch : List BVal) (d : BDoc) (id : BVal),
      BVal.vDoc d ∈ batch → dlookup d "_id" = some id →
      WriteModel.replaceOne id d true ∈ prepareBulkOps batch) ∧
    (∀ batch : List BVal,
      (prepareBulkOps batch).length =
        (batch.filter fun v => (bulkOpFor v).isSome).length) ∧
    (∀ (batch : List BVal) (op : WriteModel), op ∈ prepareBulkOps batch →
      ∃ id d, op = .replaceOne id d true) ∧
    (∀ batch : List BVal,
      (upsertDocuments batch).length ≤ 1 ∧
      ∀ c ∈ upsertDocuments batch, c.1 = prepareBulkOps batch ∧ c.2 = false) := by
  refine ⟨processBatches_count, ?_, ?_, ?_, ?_⟩
  · intro batch d id hmem hid
    rw [prepareBulkOps_eq_filterMap]
    exact List.mem_filterMap.mpr ⟨.vDoc d, hmem, by simp [bulkOpFor, hid]⟩
  · intro batch
    rw [prepareBulkOps_eq_filterMap]
    exact filterMap_length_isSome bulkOpFor batch
  · intro batch op hop
    rw [prepareBulkOps_eq_filterMap] at hop
    obtain ⟨v, -, hv⟩ := List.mem_filterMap.mp hop
    cases v <;> simp [bulkOpFor] at hv
    obtain ⟨id, -, hop2⟩ := hv
    exact ⟨id, _, hop2.symm⟩
  · intro batch
    unfold upsertDocuments
    split_ifs with h
    · simp
    · simp

/-- Claim C8, witness: a three-document transfer with batch size 2 reports
3, and a singleton batch with `_id` 9 yields its upsert operation. -/
theorem c8_witness :
    (processBatches 2 [BVal.vI32 1, BVal.vI32 2, BVal.vI32 3]).2 = 3 ∧
    WriteModel.replaceOne (BVal.vI32 9) [("_id", BVal.vI32 9)] true ∈
      prepareBulkOps [BVal.vDoc [("_id", BVal.vI32 9)]] := by
  have h := c8_transfer_count_and_bulk_upserts
  exact ⟨h.1 2 _, h.2.1 _ _ _ (by simp) rfl⟩

/-! ## Claim C10: documents without `_id` are invisible to the detailed audit -/

/-- The side-by-side run of the source loop on all documents and on only
those with a primary key: the audited counters agree whenever the starting
states agree on them (the states may differ in the untracked `docCount`). -/
theorem processSourceDocuments_filter (target : BVal → LookupOutcome) :
    ∀ (docs : List BDoc) (st1 st2 : SourceCounters),
      st1.missingInTarget = st2.missingInTarget → st1.different = st2.different →
      (processSourceDocuments docs target st1).map
          (fun r => (r.missingInTarget, r.different)) =
        (processSourceDocuments (docs.filter hasPrimaryKey) target st2).map
          (fun r => (r.missingInTarget, r.different)) := by
  intro docs
  induction docs with
  | nil =>
    intro st1 st2 h1 h2
    simp [processSourceDocuments, Except.map, h1, h2]
  | cons d rest ih =>
    intro st1 st2 h1 h2
    by_cases hid : hasPrimaryKey d = true
    · obtain ⟨id, hid2⟩ := Option.isSome_iff_exists.mp (by simpa [hasPrimaryKey] using hid)
      rw [List.filter_cons_of_pos hid]
      cases htgt : target id with
      | notFound =>
        simp only [processSourceDocuments, processSourceDocument, hid2, htgt]
        exact ih _ _ (by simp [h1]) (by simp [h2])
      | lookupError =>
        simp only [processSourceDocuments, processSourceDocument, hid2, htgt]
      | found targetDoc =>
        simp only [processSourceDocuments, processSourceDocument, hid2, htgt]
        split_ifs with heq
        · exact ih _ _ (by simp [h1]) (by simp [h2])
        · exact ih _ _ (by simp [h1]) (by simp [h2])
    · have hnone : dlookup d "_id" = none :=
        Option.not_isSome_iff_eq_none.mp (by simpa [hasPrimaryKey] using hid)
      rw [List.filter_cons_of_neg hid]
      simp only [processSourceDocuments, processSourceDocument, hnone]
      exact ih _ _ (by simp [h1]) (by simp [h2])

/-- The target-side analogue of `processSourceDocuments_filter`. -/
theorem processTargetDocuments_filter (source : BVal → LookupOutcome) :
    ∀ (docs : List BDoc) (st1 st2 : TargetCounters),
      st1.missingInSource = st2.missingInSource →
      (processTargetDocuments docs source st1).map (fun r => r.missingInSource) =
        (processTargetDocuments (docs.filter hasPrimaryKey) source st2).map
          (fun r => r.missingInSource) := by
  intro docs
  induction docs with
  | nil =>
    intro st1 st2 h1
    simp [processTargetDocuments, Except.map, h1]
  | cons d rest ih =>
    intro st1 st2 h1
    by_cases hid : hasPrimaryKey d = true
    · obtain ⟨id, hid2⟩ := Option.isSome_iff_exists.mp (by simpa [hasPrimaryKey] using hid)
      rw [List.filter_cons_of_pos hid]
      cases hsrc : source id with
      | notFound =>
        simp only [processTargetDocuments, processTargetDocument, hid2, hsrc]
        exact ih _ _ (by simp [h1])
      | lookupError =>
        simp only [processTargetDocuments, processTargetDocument, hid2, hsrc]
      | found sourceDoc =>
        simp only [processTargetDocuments, processTargetDocument, hid2, hsrc]
        exact ih _ _ (by simp [h1])
    · have hnone : dlookup d "_id" = none :=
        Option.not_isSome_iff_eq_none.mp (by simpa [hasPrimaryKey] using hid)
      rw [List.filter_cons_of_neg hid]
      simp only [processTargetDocuments, processTargetDocument, hnone]
      exact ih _ _ (by simp [h1])

/-- Claim C10: a document lacking `_id` is passed over by both detailed
loops — it contributes to no audit counter and produces no error (its
lookup is never attempted) — while both loops' counters are exactly those
of the id-bearing documents; the collection counts, by contrast, include
every document. -/
theorem c10_documents_without_id_invisible :
    (∀ (doc : BDoc) (target : BVal → LookupOutcome) (st : SourceCounters),
      dlookup doc "_id" = none → processSourceDocument doc target st = .ok st) ∧
    (∀ (doc : BDoc) (source : BVal → LookupOutcome) (st : TargetCounters),
      dlookup doc "_id" = none → processTargetDocument doc source st = .ok st) ∧
    (∀ (docs : List BDoc) (target : BVal → LookupOutcome) (st : SourceCounters),
      (processSourceDocuments docs target st).map
          (fun r => (r.missingInTarget, r.different)) =
        (processSourceDocuments (docs.filter hasPrimaryKey) target st).map
          (fun r => (r.missingInTarget, r.different))) ∧
    (∀ (docs : List BDoc) (source : BVal → LookupOutcome) (st : TargetCounters),
      (processTargetDocuments docs source st).map (fun r => r.missingInSource) =
        (processTargetDocuments (docs.filter hasPrimaryKey) source st).map
          (fun r => r.missingInSource)) ∧
    (∀ sourceDocs targetDocs : List BDoc,
      calculateCollectionCounts sourceDocs targetDocs =
        (Int.ofNat sourceDocs.length, Int.ofNat targetDocs.length)) := by
  refine ⟨?_, ?_, ?_, ?_, fun s t => rfl⟩
  · intro doc target st h
    simp [processSourceDocument, h]
  · intro doc source st h
    simp [processTargetDocument, h]
  · intro docs target st
    exact processSourceDocuments_filter target docs st st rfl rfl
  · intro docs source st
    exact processTargetDocuments_filter source docs st st rfl

/-- Claim C10, witness: a document without `_id` is passed over even when
every lookup on the other side would fail. -/
theorem c10_witness :
    processSourceDocument [("name", BVal.vStr "x")] (fun _ => .lookupError) ⟨0, 0, 0⟩ =
      .ok ⟨0, 0, 0⟩ := by
  exact c10_documents_without_id_invisible.1 _ _ _ rfl

/-! ## Claim C3: the comparator against its claimed characterization

First, `goEq` is lawful: Go `==` on the value model is propositional
equality. -/

theorem goEq_iff_aux :
    ∀ n : Nat,
      (∀ v w : BVal, sizeOf v ≤ n → (goEq v w = true ↔ v = w)) ∧
      (∀ l1 l2 : List (String × BVal), sizeOf l1 ≤ n → (goEqEntries l1 l2 = true ↔ l1 = l2)) ∧
      (∀ l1 l2 : List BVal, sizeOf l1 ≤ n → (goEqList l1 l2 = true ↔ l1 = l2)) := by
  intro n
  induction n using Nat.strong_induction_on with
  | _ n ih =>
    refine ⟨?_, ?_, ?_⟩
    · intro v w hn
      cases v <;> cases w <;> first | (simp [goEq]; done) | skip
      case vDoc.vDoc ad bd =>
        have hlt : sizeOf ad < n := by simp at hn; omega
        rw [show goEq (.vDoc ad) (.vDoc bd) = goEqEntries ad bd from rfl,
          (ih _ hlt).2.1 ad bd le_rfl]
        simp
      case vArr.vArr av bw =>
        have hlt : sizeOf av < n := by simp at hn; omega
        rw [show goEq (.vArr av) (.vArr bw) = goEqList av bw from rfl,
          (ih _ hlt).2.2 av bw le_rfl]
        simp
    · intro l1 l2 hn
      cases l1 with
      | nil => cases l2 <;> simp [goEqEntries]
      | cons kv r1 =>
        obtain ⟨k1, v1⟩ := kv
        cases l2 with
        | nil => simp [goEqEntries]
        | cons kv2 r2 =>
          obtain ⟨k2, v2⟩ := kv2
          have hsz : sizeOf v1 < n ∧ sizeOf r1 < n := by simp at hn; omega
          rw [show goEqEntries ((k1, v1) :: r1) ((k2, v2) :: r2) =
            (k1 == k2 && goEq v1 v2 && goEqEntries r1 r2) from rfl]
          simp [(ih _ hsz.1).1 v1 v2 le_rfl, (ih _ hsz.2).2.1 r1 r2 le_rfl]
    · intro l1 l2 hn
      cases l1 with
      | nil => cases l2 <;> simp [goEqList]
      | cons x r1 =>
        cases l2 with
        | nil => simp [goEqList]
        | cons y r2 =>
          have hsz : sizeOf x < n ∧ sizeOf r1 < n := by simp at hn; omega
          rw [show goEqList (x :: r1) (y :: r2) = (goEq x y && goEqList r1 r2) from rfl]
          simp [(ih _ hsz.1).1 x y le_rfl, (ih _ hsz.2).2.2 r1 r2 le_rfl]

theorem goEq_iff (v w : BVal) : goEq v w = true ↔ v = w :=
  (goEq_iff_aux (sizeOf v)).1 v w le_rfl

/-! Lookup and well-formedness facts feeding the comparator proof. -/

theorem dlookup_isSome_of_mem {d : BDoc} {k : String} {v : BVal} (h : (k, v) ∈ d) :
    (dlookup d k).isSome = true := by
  induction d with
  | nil => simp at h
  | cons kv rest ih =>
    obtain ⟨k2, v2⟩ := kv
    by_cases hk : k2 = k
    · simp [dlookup, hk]
    · rcases List.mem_cons.mp h with heq | hmem
      · exact absurd (congrArg Prod.fst heq).symm hk
      · rw [show dlookup ((k2, v2) :: rest) k = if k2 = k then some v2 else dlookup rest k
          from rfl, if_neg hk]
        exact ih hmem

theorem dlookup_eq_of_mem_nodup {d : BDoc} {k : String} {v : BVal}
    (hnd : (d.map Prod.fst).Nodup) (h : (k, v) ∈ d) : dlookup d k = some v := by
  induction d with
  | nil => simp at h
  | cons kv rest ih =>
    obtain ⟨k2, v2⟩ := kv
    simp only [List.map_cons, List.nodup_cons] at hnd
    rcases List.mem_cons.mp h with heq | hmem
    · have h1 : k = k2 := congrArg Prod.fst heq
      have h2 : v = v2 := congrArg Prod.snd heq
      subst h1
      subst h2
      simp [dlookup]
    · have hk : k2 ≠ k := by
        intro he
        subst he
        exact hnd.1 (List.mem_map.mpr ⟨(k2, v), hmem, rfl⟩)
      rw [show dlookup ((k2, v2) :: rest) k = if k2 = k then some v2 else dlookup rest k
        from rfl, if_neg hk]
      exact ih hnd.2 hmem

theorem wf_vDoc_parts {d : BDoc} (h : wfBVal (.vDoc d) = true) :
    (d.map Prod.fst).Nodup ∧ wfEntries d = true := by
  rw [show wfBVal (.vDoc d) = (decide ((d.map Prod.fst).Nodup) && wfEntries d) from rfl] at h
  simpa using h

theorem wfEntries_mem {d : BDoc} {k : String} {v : BVal}
    (hw : wfEntries d = true) (h : (k, v) ∈ d) : wfBVal v = true := by
  induction d with
  | nil => simp at h
  | cons kv rest ih =>
    obtain ⟨k2, v2⟩ := kv
    rw [show wfEntries ((k2, v2) :: rest) = (wfBVal v2 && wfEntries rest) from rfl] at hw
    simp only [Bool.and_eq_true] at hw
    rcases List.mem_cons.mp h with heq | hmem
    · have h2 : v = v2 := congrArg Prod.snd heq
      rw [h2]
      exact hw.1
    · exact ih hw.2 hmem

theorem wfList_mem {l : List BVal} {v : BVal}
    (hw : wfList l = true) (h : v ∈ l) : wfBVal v = true := by
  induction l with
  | nil => simp at h
  | cons x rest ih =>
    rw [show wfList (x :: rest) = (wfBVal x && wfList rest) from rfl] at hw
    simp only [Bool.and_eq_true] at hw
    rcases List.mem_cons.mp h with heq | hmem
    · rw [heq]; exact hw.1
    · exact ih hw.2 hmem

theorem isDocVal_iff {v : BVal} : isDocVal v = true ↔ ∃ d, v = .vDoc d := by
  cases v <;> simp [isDocVal]

/-- The extra-key check of the code, read as the claim reads it: no key of
`b` outside `lastModified`/`modified` is absent from `a`. -/
theorem hasExtraKeys_false_iff (a b : BDoc) :
    hasExtraKeys a b = false ↔
      ∀ k y, dlookup b k = some y → k ≠ "lastModified" → k ≠ "modified" →
        ∃ x, dlookup a k = some x := by
  unfold hasExtraKeys
  rw [List.any_eq_false]
  constructor
  · intro h k y hky h1 h2
    have hp := h (k, y) (dlookup_mem hky)
    cases hdl : dlookup a k with
    | some x => exact ⟨x, rfl⟩
    | none => simp [h1, h2, hdl] at hp
  · intro h kv hkv
    obtain ⟨k, y⟩ := kv
    by_cases h1 : k = "lastModified"
    · simp [h1]
    · by_cases h2 : k = "modified"
      · simp [h2]
      · obtain ⟨y2, hy2⟩ := Option.isSome_iff_exists.mp (dlookup_isSome_of_mem hkv)
        obtain ⟨x, hx⟩ := h k y2 hy2 h1 h2
        simp [h1, h2, hx]

/-- The per-entry loop of `compareDocumentKeys`, read entry-wise: assuming
the value comparisons already coincide with the spec predicate on the
entries involved, the loop succeeds iff every non-volatile entry of the
iterated list is matched in `b` (value check waived under the
`shouldSkipCompare` carve-out). -/
theorem compareKeysLoop_iff (a b : BDoc) :
    ∀ entries : List (String × BVal),
      (∀ p ∈ entries, ∀ y, dlookup b p.1 = some y →
        (compareValues p.2 y = true ↔ specValEqProp true p.2 y)) →
      (compareKeysLoop entries a b = true ↔
        ∀ p ∈ entries, p.1 ≠ "lastModified" →
          ∃ y, dlookup b p.1 = some y ∧
            (shouldSkipCompare a p.1 = true ∨ specValEqProp true p.2 y)) := by
  intro entries
  induction entries with
  | nil =>
    intro _
    simp [compareKeysLoop]
  | cons kv rest ih =>
    intro hIH
    obtain ⟨k, x⟩ := kv
    rw [show compareKeysLoop ((k, x) :: rest) a b =
      ((if k = "lastModified" then true
        else match dlookup b k with
          | none => false
          | some bVal => if shouldSkipCompare a k then true else compareValues x bVal)
       && compareKeysLoop rest a b) from rfl]
    rw [Bool.and_eq_true, ih fun p hp => hIH p (List.mem_cons_of_mem _ hp)]
    rw [List.forall_mem_cons]
    refine and_congr ?_ Iff.rfl
    by_cases hk : k = "lastModified"
    · simp [hk]
    · rw [if_neg hk]
      cases hb : dlookup b k with
      | none => simp [hb, hk]
      | some y =>
        by_cases hs : shouldSkipCompare a k = true
        · simp [hb, hs, hk]
        · simp only [hs, if_false, Bool.false_eq_true]
          rw [hIH (k, x) (List.mem_cons_self _ _) y hb]
          simp [hb, hk, hs]

/-! Panic-freedom propagates along the structure the comparison walks. -/

theorem noSlicePairEntries_mem {b : BDoc} :
    ∀ {a : List (String × BVal)} {k : String} {x y : BVal},
      noSlicePairEntries a b = true → (k, x) ∈ a → dlookup b k = some y →
      noSlicePair x y = true := by
  intro a
  induction a with
  | nil =>
    intro k x y h hmem hy
    simp at hmem
  | cons kv rest ih =>
    intro k x y h hmem hy
    obtain ⟨k2, x2⟩ := kv
    rcases List.mem_cons.mp hmem with heq | hmem2
    · have hk : k = k2 := congrArg Prod.fst heq
      have hx : x = x2 := congrArg Prod.snd heq
      subst hk
      subst hx
      simp only [noSlicePairEntries, hy, Bool.and_eq_true] at h
      exact h.1
    · simp only [noSlicePairEntries, Bool.and_eq_true] at h
      exact ih h.2 hmem2 hy

theorem noSlicePairElems_zip {xs : List BVal} :
    ∀ {ys : List BVal}, noSlicePairElems xs ys = true →
      ∀ p ∈ xs.zip ys, noSlicePairElem p.1 p.2 = true := by
  induction xs with
  | nil =>
    intro ys _ p hp
    simp at hp
  | cons x rxs ih =>
    intro ys h p hp
    cases ys with
    | nil => simp at hp
    | cons y rys =>
      rw [show noSlicePairElems (x :: rxs) (y :: rys) =
        (noSlicePairElem x y && noSlicePairElems rxs rys) from rfl,
        Bool.and_eq_true] at h
      rw [List.zip_cons_cons] at hp
      rcases List.mem_cons.mp hp with heq | hmem
      · subst heq
        exact h.1
      · exact ih h.2 p hmem

theorem noSlicePair_of_elem {x y : BVal} (h : noSlicePairElem x y = true) :
    noSlicePair x y = true := by
  cases x <;> cases y <;> simp_all [noSlicePairElem, noSlicePair]

/-- One aligned array element pair on the panic-free domain: nested
documents by the document predicate (given that the value comparison
already matches the spec there), anything else by plain Go equality on
comparable or differently-typed operands; two aligned arrays — the
configuration on which the program would panic — are excluded by the
hypothesis. -/
theorem sliceElemCompare_iff (x y : BVal)
    (hxy : compareValues x y = true ↔ specValEqProp true x y)
    (hnp : noSlicePairElem x y = true) :
    (sliceElemCompare x y = true ↔
      if isDocVal x && isDocVal y then specValEqProp true x y else x = y) := by
  cases x <;> cases y <;> first
    | (simp [noSlicePairElem] at hnp; done)
    | (simp [sliceElemCompare, isDocVal, goEq_iff]; done)
    | skip
  case vDoc.vDoc xd yd =>
    rw [show sliceElemCompare (BVal.vDoc xd) (BVal.vDoc yd) =
      compareValues (BVal.vDoc xd) (BVal.vDoc yd) from rfl]
    simpa [isDocVal] using hxy

/-- The array comparison of `sliceEqual`, read element-wise: assuming the
value comparisons already coincide with the spec predicate on the zipped
pairs, it succeeds iff the lengths agree and every aligned pair is equal —
nested documents by the document predicate, everything else by plain
equality. -/
theorem sliceEqual_iff :
    ∀ (xs ys : List BVal),
      (∀ p ∈ xs.zip ys, (compareValues p.1 p.2 = true ↔ specValEqProp true p.1 p.2)) →
      (∀ p ∈ xs.zip ys, noSlicePairElem p.1 p.2 = true) →
      (sliceEqual xs ys = true ↔
        xs.length = ys.length ∧
        ∀ p ∈ xs.zip ys,
          if isDocVal p.1 && isDocVal p.2 then specValEqProp true p.1 p.2
          else p.1 = p.2) := by
  intro xs
  induction xs with
  | nil =>
    intro ys _ _
    cases ys <;> simp [sliceEqual]
  | cons x rxs ih =>
    intro ys hIH hNP
    cases ys with
    | nil => simp [sliceEqual]
    | cons y rys =>
      rw [show sliceEqual (x :: rxs) (y :: rys) =
        (sliceElemCompare x y && sliceEqual rxs rys) from rfl]
      rw [Bool.and_eq_true,
        ih rys (fun p hp => hIH p (by simp [List.zip_cons_cons, hp]))
          (fun p hp => hNP p (by simp [List.zip_cons_cons, hp])),
        sliceElemCompare_iff x y (hIH (x, y) (by simp [List.zip_cons_cons]))
          (hNP (x, y) (by simp [List.zip_cons_cons]))]
      rw [List.zip_cons_cons, List.forall_mem_cons]
      simp only [List.length_cons]
      constructor
      · rintro ⟨h1, h2, h3⟩
        exact ⟨by omega, h1, h3⟩
      · rintro ⟨h1, h2, h3⟩
        exact ⟨h2, by omega, h3⟩

/-- The comparator coincides with the claim's characterization amended by
the two carve-outs (`specValEqProp true`), on well-formed values, on the
panic-free domain (`noSlicePair`). -/
theorem compareValues_iff_spec :
    ∀ (n : Nat) (v w : BVal), sizeOf v ≤ n → wfBVal v = true → wfBVal w = true →
      noSlicePair v w = true →
      (compareValues v w = true ↔ specValEqProp true v w) := by
  intro n
  induction n using Nat.strong_induction_on with
  | _ n ih =>
    intro v w hn hwv hww hnp
    cases v <;> cases w <;> first
      | (simp [compareValues, specValEqProp, goEq_iff]; done)
      | skip
    case vDoc.vDoc ad bd =>
      obtain ⟨hnd, hwe⟩ := wf_vDoc_parts hwv
      obtain ⟨hndb, hweb⟩ := wf_vDoc_parts hww
      have hsz : sizeOf ad < n := by simp at hn; omega
      rw [show noSlicePair (.vDoc ad) (.vDoc bd) = noSlicePairEntries ad bd
        from rfl] at hnp
      have hIH : ∀ p ∈ ad, ∀ y, dlookup bd p.1 = some y →
          (compareValues p.2 y = true ↔ specValEqProp true p.2 y) := by
        rintro ⟨k, x⟩ hp y hy
        have hx : sizeOf x < n := by
          have h1 := List.sizeOf_lt_of_mem hp
          have h2 : sizeOf (k, x) = 1 + sizeOf k + sizeOf x := rfl
          omega
        exact ih _ hx x y le_rfl (wfEntries_mem hwe hp)
          (wfEntries_mem hweb (dlookup_mem hy))
          (noSlicePairEntries_mem hnp hp hy)
      rw [show compareValues (.vDoc ad) (.vDoc bd) =
        (compareKeysLoop ad ad bd && !(hasExtraKeys ad bd)) from rfl]
      rw [Bool.and_eq_true, Bool.not_eq_true', compareKeysLoop_iff ad bd ad hIH,
        hasExtraKeys_false_iff ad bd]
      rw [show specValEqProp true (.vDoc ad) (.vDoc bd) =
        ((∀ k x, dlookup ad k = some x → k ≠ "lastModified" →
           ∃ y, dlookup bd k = some y ∧
             ((true = true ∧ shouldSkipCompare ad k = true) ∨ specValEqProp true x y))
         ∧ (∀ k y, dlookup bd k = some y → k ≠ "lastModified" →
             ¬(true = true ∧ k = "modified") → ∃ x, dlookup ad k = some x))
        from by rw [specValEqProp]]
      refine and_congr ?_ ?_
      · constructor
        · intro h k x hkx hlm
          have := h (k, x) (dlookup_mem hkx) hlm
          simpa using this
        · rintro h ⟨k, x⟩ hp hlm
          have := h k x (dlookup_eq_of_mem_nodup hnd hp) hlm
          simpa using this
      · constructor
        · intro h k y hky hlm hmod
          exact h k y hky hlm (by simpa using hmod)
        · intro h k y hky hlm hmod
          exact h k y hky hlm (by simpa using hmod)
    case vArr.vArr av bw =>
      have hwla := hwv
      have hwlb := hww
      rw [show wfBVal (.vArr av) = wfList av from rfl] at hwla
      rw [show wfBVal (.vArr bw) = wfList bw from rfl] at hwlb
      rw [show noSlicePair (.vArr av) (.vArr bw) = noSlicePairElems av bw
        from rfl] at hnp
      have hNP := noSlicePairElems_zip hnp
      have hIH : ∀ p ∈ av.zip bw,
          (compareValues p.1 p.2 = true ↔ specValEqProp true p.1 p.2) := by
        intro p hp
        obtain ⟨h1, h2⟩ := List.of_mem_zip hp
        have hx : sizeOf p.1 < n := by
          have := List.sizeOf_lt_of_mem h1
          simp at hn
          omega
        exact ih _ hx p.1 p.2 le_rfl (wfList_mem hwla h1) (wfList_mem hwlb h2)
          (noSlicePair_of_elem (hNP p hp))
      rw [show compareValues (.vArr av) (.vArr bw) = sliceEqual av bw from rfl,
        sliceEqual_iff av bw hIH hNP]
      rw [show specValEqProp true (.vArr av) (.vArr bw) =
        (av.length = bw.length ∧
          ∀ p ∈ av.zip bw,
            if isDocVal p.1 && isDocVal p.2 then specValEqProp true p.1 p.2
            else p.1 = p.2) from by rw [specValEqProp]]

/-- Claim C3, amended: on documents with distinct keys at every level (as
anything decoded from `bson.M` is) that are free of aligned
array-against-array element pairs inside compared arrays (`noSlicePair` —
on such a pair the program's `a[i] != b[i]` on two slice interface values
panics at run time, compare.go line 495, so the comparator returns no
verdict there), `bsonEqual` is exactly the claimed structural equality —
every field of the first except the volatile `lastModified` exists in the
second with a recursively equal value, and the second has no extra
non-volatile field — amended by the code's two test-fixture carve-outs:
the value check (not the existence check) of the field `value` is waived
when the document's `_id` is the Go literal int 2, and the second document
may additionally carry the field `modified` (`specValEqProp true`). -/
theorem c3_bsonEqual_characterization (a b : BDoc)
    (ha : wfBVal (.vDoc a) = true) (hb : wfBVal (.vDoc b) = true)
    (hnp : noSlicePair (.vDoc a) (.vDoc b) = true) :
    bsonEqual a b = true ↔ specValEqProp true (.vDoc a) (.vDoc b) := by
  have h := compareValues_iff_spec (sizeOf (BVal.vDoc a)) (.vDoc a) (.vDoc b)
    le_rfl ha hb hnp
  rw [show compareValues (.vDoc a) (.vDoc b) = bsonEqual a b from rfl] at h
  exact h

/-- Claim C3, counterexample to the claim as stated (`specValEqProp false`,
no carve-outs): the comparator accepts a second document with the extra
non-volatile field `modified`, and accepts two documents with `_id` 2 whose
`value` fields differ. -/
theorem c3_counterexample_test_hacks :
    (bsonEqual [("_id", .vI32 1)] [("_id", .vI32 1), ("modified", .vI32 5)] = true ∧
      ¬ specValEqProp false (.vDoc [("_id", .vI32 1)])
        (.vDoc [("_id", .vI32 1), ("modified", .vI32 5)])) ∧
    (bsonEqual [("_id", .vIntGo 2), ("value", .vIntGo 200)]
        [("_id", .vIntGo 2), ("value", .vIntGo 201)] = true ∧
      ¬ specValEqProp false (.vDoc [("_id", .vIntGo 2), ("value", .vIntGo 200)])
        (.vDoc [("_id", .vIntGo 2), ("value", .vIntGo 201)])) := by
  refine ⟨⟨by decide, ?_⟩, ⟨by decide, ?_⟩⟩
  · intro h
    rw [specValEqProp] at h
    obtain ⟨-, hback⟩ := h
    obtain ⟨x, hx⟩ := hback "modified" (.vI32 5) (by simp [dlookup]) (by simp) (by simp)
    simp [dlookup] at hx
  · intro h
    rw [specValEqProp] at h
    obtain ⟨hfwd, -⟩ := h
    obtain ⟨y, hy, hor⟩ := hfwd "value" (.vIntGo 200) (by simp [dlookup]) (by simp)
    simp [dlookup] at hy
    rcases hor with hskip | hval
    · simp at hskip
    · rw [← hy] at hval
      rw [specValEqProp] at hval
      simp at hval
      all_goals intros
      all_goals simp_all

/-- Claim C3, witness: two well-formed documents identical except for the
volatile `lastModified` field satisfy the amended characterization. -/
theorem c3_witness :
    specValEqProp true (.vDoc [("x", BVal.vI32 1), ("lastModified", BVal.vTime 3)])
      (.vDoc [("x", BVal.vI32 1), ("lastModified", BVal.vTime 9)]) :=
  (c3_bsonEqual_characterization _ _ (by decide) (by decide) (by decide)).mp
    (by decide)

end Nmongo
